import Mathlib

/-!
Verification of the AutoGen Planner/Executor repository
(`AutoGen/src/tools.py`, `AutoGen/src/config.py`, `AutoGen/src/agent.py`)
against its natural-language specification.

The filesystem-touching tool `save_plan_to_file` is embedded as a pure
function over an explicit filesystem state (`FS`).  Paths are modelled as
plain strings with POSIX `pathlib` join semantics.  The LLM configuration
reader is embedded over an explicit environment association list.  The
group-chat conversation loop lives in the external `autogen` library, so
it is modelled from the specification's state-machine description as a
step relation on conversation sessions.
-/

namespace AutoGenPlanner

/-! ## Path model (POSIX `pathlib` semantics used by `tools.py`) -/

/-- `PurePosixPath.is_absolute`: a path is absolute when it starts with a slash. -/
def isAbs (p : String) : Bool :=
  match p.data with
  | [] => false
  | c :: _ => c = '/'

/-- The `pathlib` path join (the `/` operator): when the right operand is an
absolute path it replaces the left operand entirely, otherwise the two are
joined with a slash separator. -/
def pathJoin (a b : String) : String := if isAbs b then b else a ++ "/" ++ b

/-! ## Filesystem state model -/

/-- A filesystem state: the set of existing directories and a map from file
paths to their text contents (as an association list, newest entry first). -/
structure FS where
  dirs : List String
  files : List (String × String)
deriving DecidableEq, Repr

/-- Content of the file at path `p`, if a file exists there. -/
def FS.lookup (fs : FS) (p : String) : Option String :=
  (fs.files.find? (fun e => e.1 == p)).map (fun e => e.2)

/-- Replace (or create) the file at `p` with content `c`:
`Path.write_text` truncates, so the previous entry for `p` is dropped. -/
def FS.setFile (fs : FS) (p c : String) : FS :=
  { fs with files := (p, c) :: fs.files.filter (fun e => !(e.1 == p)) }

/-- Python `Path.mkdir(parents=True, exist_ok=True)`: succeeds when the directory
already exists, creates it otherwise, and raises `FileExistsError` only when
a regular file occupies the path. -/
def FS.mkdirAll (fs : FS) (d : String) : Except String FS :=
  if (fs.lookup d).isSome then Except.error "FileExistsError"
  else if d ∈ fs.dirs then Except.ok fs
  else Except.ok { fs with dirs := d :: fs.dirs }

/-- Python `Path.write_text`: raises `IsADirectoryError` when the path is an
existing directory, otherwise fully overwrites the file. -/
def FS.writeText (fs : FS) (p c : String) : Except String FS :=
  if p ∈ fs.dirs then Except.error "IsADirectoryError"
  else Except.ok (fs.setFile p c)

/-- Well-formed filesystem: no regular file occupies a directory path. -/
def FS.WF (fs : FS) : Prop := ∀ p, p ∈ fs.dirs → fs.lookup p = none

/-! ## `tools.py`: `save_plan_to_file` -/

/-- One formatted plan line without its terminating newline:
the body of the f-string `"{i+1}. {step}"` for 0-based index `i`. -/
def planLine (i : Nat) (step : String) : String := toString (i + 1) ++ ". " ++ step

/-- The list comprehension `[f"{i+1}. {step}\n" for i, step in enumerate(steps)]`,
with `i` the running 0-based index. -/
def numberLines : Nat → List String → List String
  | _, [] => []
  | i, step :: rest => (planLine i step ++ "\n") :: numberLines (i + 1) rest

/-- Python `"".join`. -/
def joinAll : List String → String
  | [] => ""
  | s :: rest => s ++ joinAll rest

/-- The full text written by `save_plan_to_file` for a given steps list. -/
def planContent (steps : List String) : String := joinAll (numberLines 0 steps)

/-- The function `tools.save_plan_to_file(steps, filename)`, embedded over an explicit
filesystem state.  `root` is the resolved repository root
(`Path(__file__).resolve().parents[2]`); the function creates
`root/logs`, writes the numbered plan there and returns the written path. -/
def save_plan_to_file (fs : FS) (root : String) (steps : List String)
    (filename : String := "autogen_plan.txt") : Except String (FS × String) :=
  let logs_dir := pathJoin root "logs"
  match fs.mkdirAll logs_dir with
  | Except.error e => Except.error e
  | Except.ok fs1 =>
    let path := pathJoin logs_dir filename
    match fs1.writeText path (planContent steps) with
    | Except.error e => Except.error e
    | Except.ok fs2 => Except.ok (fs2, path)

/-! ## Line structure of text-file contents -/

/-- Split a character stream into its lines: a line ends at each newline
character, and a final chunk without a terminating newline still counts as
a line (Python `str.splitlines` semantics).  `acc` holds the characters of
the current line, reversed. -/
def splitAtNewlines : List Char → List Char → List (List Char)
  | [], acc => if acc = [] then [] else [acc.reverse]
  | c :: rest, acc =>
    if c = '\n' then acc.reverse :: splitAtNewlines rest []
    else splitAtNewlines rest (c :: acc)

/-- The lines of a text file's content. -/
def fileLines (s : String) : List String :=
  (splitAtNewlines s.data []).map (fun l => l.asString)

/-! ## `tools.py` instrumented with an outcome oracle (for error propagation)

`save_plan_to_file` performs exactly two filesystem primitives, in order:
one `mkdir` and one `write_text`.  To reason about arbitrary filesystem
errors (permission denied, disk full, ...) the primitives are abstracted
by an oracle deciding each operation's outcome; the embedding records the
operations attempted, in order. -/

/-- A filesystem primitive attempted by `save_plan_to_file`. -/
inductive FSOp
  | mkdir (d : String)
  | write (p c : String)
deriving DecidableEq, Repr

/-- Whether an operation is the file write. -/
def FSOp.isWrite : FSOp → Bool
  | FSOp.mkdir _ => false
  | FSOp.write _ _ => true

/-- The function `save_plan_to_file` with its two filesystem primitives decided by an
outcome oracle; returns the result (written path or propagated error)
together with the list of operations attempted, in order.  Mirrors the
straight-line source: `mkdir`, then `write_text`, then `return str(path)`;
there is no try/except around either call. -/
def save_plan_to_file_traced (outcome : FSOp → Except String Unit) (root : String)
    (steps : List String) (filename : String) : Except String String × List FSOp :=
  let logs_dir := pathJoin root "logs"
  match outcome (FSOp.mkdir logs_dir) with
  | Except.error e => (Except.error e, [FSOp.mkdir logs_dir])
  | Except.ok _ =>
    let path := pathJoin logs_dir filename
    match outcome (FSOp.write path (planContent steps)) with
    | Except.error e =>
      (Except.error e, [FSOp.mkdir logs_dir, FSOp.write path (planContent steps)])
    | Except.ok _ =>
      (Except.ok path, [FSOp.mkdir logs_dir, FSOp.write path (planContent steps)])

/-! ## `config.py`: `get_llm_config` -/

/-- One entry of the AutoGen `config_list`. -/
structure LLMEntry where
  model : String
  api_key : String
  base_url : String
deriving DecidableEq, Repr

/-- The dictionary returned by `get_llm_config`. -/
structure LLMConfig where
  config_list : List LLMEntry
deriving DecidableEq, Repr

/-- Python `os.getenv(key, default)` over an explicit environment association list. -/
def os_getenv (environ : List (String × String)) (key d : String) : String :=
  match environ.find? (fun kv => kv.1 == key) with
  | some kv => kv.2
  | none => d

/-- The function `config.get_llm_config()`, embedded over an explicit environment. -/
def get_llm_config (environ : List (String × String)) : LLMConfig :=
  { config_list :=
      [ { model := "mistral:latest"
          api_key := "NA"
          base_url := os_getenv environ "OLLAMA_BASE_URL" "http://localhost:11434/v1" } ] }

/-! ## `agent.py`: the group-chat conversation -/

/-- The conversational roles wired up in `create_planner_executor_agents`. -/
inductive Role
  | user
  | planner
  | executor
  | supervisor
deriving DecidableEq, Repr

/-- A transcript message: sender role and textual content. -/
structure Message where
  sender : Role
  content : String
deriving DecidableEq, Repr

/-- A placeholder message used as the default for list indexing. -/
def defaultMessage : Message := { sender := Role.user, content := "" }

/-- From `agent.py`: the `GroupChat` is constructed with `max_round=10`. -/
def groupchat_max_round : Nat := 10

/-- Modelled from the spec: the Conversation Session of the data model —
the ordered append-only message list, the round counter and the
termination flag.  The conversation engine itself lives in the external
`autogen` library (`GroupChat` / `GroupChatManager`), not in `src/`. -/
structure Session where
  messages : List Message
  round : Nat
  terminated : Bool
deriving DecidableEq, Repr

/-- Modelled from the spec: one step of the coordinator's turn-taking
protocol, which is implemented by the external `autogen` library and
described by the spec's state machine.  A `speak` turn appends exactly one
message and increments the round counter; it is only possible while the
session is not terminated and the round counter is below the configured
maximum, and the manager's selection policy lets the executor speak only
after the planner has contributed at least one message.  A `halt` step
sets the termination flag; once set, no further turns are appended. -/
inductive Turn (maxRound : Nat) : Session → Session → Prop
  | speak (s : Session) (m : Message)
      (hterm : s.terminated = false)
      (hround : s.round < maxRound)
      (hpol : m.sender = Role.executor →
        ∃ k, k < s.messages.length ∧
          (s.messages.getD k defaultMessage).sender = Role.planner) :
      Turn maxRound s
        { messages := s.messages ++ [m], round := s.round + 1,
          terminated := s.terminated }
  | halt (s : Session) (hterm : s.terminated = false) :
      Turn maxRound s
        { messages := s.messages, round := s.round, terminated := true }

/-- Modelled from the spec: the session state right after
`initiate_chat` submits the goal — the user proxy's goal message is the
sole transcript entry, no round has been taken, and the session is live. -/
def initSession (goal : String) : Session :=
  { messages := [{ sender := Role.user, content := goal }],
    round := 0, terminated := false }

/-- A session state reachable by the coordinator from the initial state
for a given goal, under the round cap configured in `agent.py`. -/
def Reachable (goal : String) (s : Session) : Prop :=
  Relation.ReflTransGen (Turn groupchat_max_round) (initSession goal) s

/-! ## Auxiliary definitions for the proofs -/

instance {ε α : Type} [DecidableEq ε] [DecidableEq α] : DecidableEq (Except ε α)
  | Except.error e, Except.error f =>
    if h : e = f then Decidable.isTrue (by rw [h])
    else Decidable.isFalse (by intro hh; cases hh; exact h rfl)
  | Except.error _, Except.ok _ => Decidable.isFalse (by intro hh; cases hh)
  | Except.ok _, Except.error _ => Decidable.isFalse (by intro hh; cases hh)
  | Except.ok a, Except.ok b =>
    if h : a = b then Decidable.isTrue (by rw [h])
    else Decidable.isFalse (by intro hh; cases hh; exact h rfl)

/-- The formatted plan lines without their terminating newlines. -/
def lineBodies : Nat → List String → List String
  | _, [] => []
  | i, step :: rest => planLine i step :: lineBodies (i + 1) rest

/-- An outcome oracle for `save_plan_to_file_traced` on which every
filesystem primitive fails (e.g. a full or read-only disk). -/
def failingOutcome : FSOp → Except String Unit := fun _ => Except.error "disk full"

/-- An outcome oracle on which directory creation succeeds but the file
write fails. -/
def writeFailOutcome : FSOp → Except String Unit := fun op =>
  match op with
  | FSOp.mkdir _ => Except.ok ()
  | FSOp.write _ _ => Except.error "No space left on device"

/-! ## Filesystem lemmas -/

theorem FS.lookup_eq_of_files {fs1 fs2 : FS} (h : fs1.files = fs2.files) (p : String) :
    fs1.lookup p = fs2.lookup p := by
  unfold FS.lookup
  rw [h]

theorem FS.lookup_setFile_self (fs : FS) (p c : String) :
    (fs.setFile p c).lookup p = some c := by
  unfold FS.lookup FS.setFile
  simp [List.find?]

theorem find?_filter_ne (files : List (String × String)) (p q : String) (h : ¬ q = p) :
    (files.filter (fun e => !(e.1 == p))).find? (fun e => e.1 == q)
      = files.find? (fun e => e.1 == q) := by
  induction files with
  | nil => rfl
  | cons e rest ih =>
    by_cases he : e.1 = p
    · have hq : ¬ (e.1 == q) = true := by
        rw [he]
        simp [beq_iff_eq]
        intro hh
        exact h hh.symm
      rw [List.filter_cons_of_neg (by simp [he]), List.find?_cons_of_neg rest hq]
      exact ih
    · by_cases heq : e.1 = q
      · rw [List.filter_cons_of_pos (by simp [he]),
          List.find?_cons_of_pos _ (by simp [beq_iff_eq, heq]),
          List.find?_cons_of_pos rest (by simp [beq_iff_eq, heq])]
      · rw [List.filter_cons_of_pos (by simp [he]),
          List.find?_cons_of_neg _ (by simp [beq_iff_eq, heq]),
          List.find?_cons_of_neg rest (by simp [beq_iff_eq, heq])]
        exact ih

theorem FS.lookup_setFile_ne (fs : FS) {p q : String} (c : String) (h : ¬ q = p) :
    (fs.setFile p c).lookup q = fs.lookup q := by
  have hpq : ¬ ((p, c).1 == q) = true := by
    simp only [beq_iff_eq]
    intro hh
    exact h hh.symm
  unfold FS.lookup FS.setFile
  dsimp only
  rw [List.find?_cons_of_neg (List.filter (fun e => !(e.1 == p)) fs.files) hpq,
    find?_filter_ne fs.files p q h]

theorem FS.setFile_dirs (fs : FS) (p c : String) : (fs.setFile p c).dirs = fs.dirs := rfl

theorem FS.mkdirAll_ok {fs fsA : FS} {d : String} (h : fs.mkdirAll d = Except.ok fsA) :
    fs.lookup d = none ∧ fsA.files = fs.files ∧ d ∈ fsA.dirs := by
  unfold FS.mkdirAll at h
  by_cases h1 : (fs.lookup d).isSome
  · simp [h1] at h
  · by_cases h2 : d ∈ fs.dirs
    · simp [h1, h2] at h
      subst h
      exact ⟨Option.not_isSome_iff_eq_none.mp h1, rfl, h2⟩
    · simp [h1, h2] at h
      subst h
      exact ⟨Option.not_isSome_iff_eq_none.mp h1, rfl, List.mem_cons_self d fs.dirs⟩

theorem FS.mkdirAll_ok_of_mem {fs : FS} {d : String} (hmem : d ∈ fs.dirs)
    (hnone : fs.lookup d = none) : fs.mkdirAll d = Except.ok fs := by
  unfold FS.mkdirAll
  simp [hnone, hmem]

theorem FS.writeText_ok {fs fs1 : FS} {p c : String} (h : fs.writeText p c = Except.ok fs1) :
    ¬ p ∈ fs.dirs ∧ fs1 = fs.setFile p c := by
  unfold FS.writeText at h
  by_cases hp : p ∈ fs.dirs
  · simp [hp] at h
  · simp [hp] at h
    exact ⟨hp, h.symm⟩

/-- Anatomy of a successful `save_plan_to_file` call: the returned path is
the join of the logs directory and the filename, the file at that path
holds exactly the numbered plan text, the logs directory exists afterwards,
and no regular file occupies the logs directory path. -/
theorem save_ok_spec {fs : FS} {root : String} {steps : List String} {f : String}
    {fs1 : FS} {p : String}
    (h : save_plan_to_file fs root steps f = Except.ok (fs1, p)) :
    p = pathJoin (pathJoin root "logs") f
    ∧ fs1.lookup p = some (planContent steps)
    ∧ pathJoin root "logs" ∈ fs1.dirs
    ∧ fs1.lookup (pathJoin root "logs") = none := by
  unfold save_plan_to_file at h
  cases hmk : fs.mkdirAll (pathJoin root "logs") with
  | error e => simp [hmk] at h
  | ok fsA =>
    simp only [hmk] at h
    cases hw : fsA.writeText (pathJoin (pathJoin root "logs") f) (planContent steps) with
    | error e => simp [hw] at h
    | ok fs2 =>
      simp only [hw] at h
      obtain ⟨hfs, hp⟩ := Prod.mk.injEq .. ▸ (Except.ok.injEq .. ▸ h)
      obtain ⟨hdnone, hfiles, hdmem⟩ := FS.mkdirAll_ok hmk
      obtain ⟨hpnotdir, hset⟩ := FS.writeText_ok hw
      subst hp
      subst hfs
      subst hset
      have hne : ¬ pathJoin root "logs" = pathJoin (pathJoin root "logs") f := by
        intro hh
        rw [hh] at hdmem
        exact hpnotdir hdmem
      refine ⟨rfl, FS.lookup_setFile_self .., ?_, ?_⟩
      · rw [FS.setFile_dirs]
        exact hdmem
      · rw [FS.lookup_setFile_ne _ _ hne, FS.lookup_eq_of_files hfiles]
        exact hdnone

/-! ## Line-structure lemmas -/

theorem asString_data (l : List Char) : (List.asString l).data = l := rfl

theorem digitChar_eq_star (n : Nat) : Nat.digitChar (n + 16) = '*' := by
  unfold Nat.digitChar
  repeat rw [if_neg (by omega)]

theorem digitChar_ne_newline (m : Nat) : ¬ Nat.digitChar m = '\n' := by
  match m with
  | 0 => decide
  | 1 => decide
  | 2 => decide
  | 3 => decide
  | 4 => decide
  | 5 => decide
  | 6 => decide
  | 7 => decide
  | 8 => decide
  | 9 => decide
  | 10 => decide
  | 11 => decide
  | 12 => decide
  | 13 => decide
  | 14 => decide
  | 15 => decide
  | n + 16 =>
    rw [digitChar_eq_star n]
    decide

theorem toDigitsCore_no_newline (b : Nat) :
    ∀ (f n : Nat) (ds : List Char), ¬ '\n' ∈ ds → ¬ '\n' ∈ Nat.toDigitsCore b f n ds := by
  intro f
  induction f with
  | zero =>
    intro n ds h
    exact h
  | succ f ih =>
    intro n ds h
    unfold Nat.toDigitsCore
    dsimp only
    split
    · intro hmem
      rcases List.mem_cons.mp hmem with h1 | h2
      · exact digitChar_ne_newline _ h1.symm
      · exact h h2
    · apply ih
      intro hmem
      rcases List.mem_cons.mp hmem with h1 | h2
      · exact digitChar_ne_newline _ h1.symm
      · exact h h2

theorem repr_no_newline (n : Nat) : ¬ '\n' ∈ (Nat.repr n).data := by
  have : (Nat.repr n).data = Nat.toDigitsCore 10 (n + 1) n [] := rfl
  rw [this]
  exact toDigitsCore_no_newline 10 (n + 1) n [] (by simp)

theorem planLine_no_newline (i : Nat) {s : String} (h : ¬ '\n' ∈ s.data) :
    ¬ '\n' ∈ (planLine i s).data := by
  unfold planLine
  rw [String.data_append, String.data_append]
  intro hmem
  rcases List.mem_append.mp hmem with h1 | h2
  · rcases List.mem_append.mp h1 with h3 | h4
    · exact repr_no_newline (i + 1) h3
    · revert h4
      decide
  · exact h h2

theorem numberLines_eq_map (i : Nat) (steps : List String) :
    numberLines i steps = (lineBodies i steps).map (fun b => b ++ "\n") := by
  induction steps generalizing i with
  | nil => rfl
  | cons s rest ih => simp [numberLines, lineBodies, ih]

theorem joinAll_terminated_data (i : Nat) (steps : List String) :
    (joinAll (numberLines i steps)).data
      = ((lineBodies i steps).map String.data).foldr (fun l r => l ++ '\n' :: r) [] := by
  induction steps generalizing i with
  | nil => rfl
  | cons s rest ih =>
    show ((planLine i s ++ "\n") ++ joinAll (numberLines (i + 1) rest)).data = _
    rw [String.data_append, String.data_append, ih (i + 1)]
    simp [lineBodies]

theorem splitAtNewlines_chunk :
    ∀ (l : List Char), ¬ '\n' ∈ l → ∀ (cs acc : List Char),
      splitAtNewlines (l ++ '\n' :: cs) acc = (acc.reverse ++ l) :: splitAtNewlines cs [] := by
  intro l
  induction l with
  | nil =>
    intro _ cs acc
    show splitAtNewlines ('\n' :: cs) acc = _
    simp only [splitAtNewlines]
    simp
  | cons c l ih =>
    intro h cs acc
    have hc : ¬ c = '\n' := by
      intro hh
      exact h (hh ▸ List.mem_cons_self c l)
    show splitAtNewlines (c :: (l ++ '\n' :: cs)) acc = _
    simp only [splitAtNewlines]
    rw [if_neg hc, ih (fun hm => h (List.mem_cons_of_mem c hm)) cs (c :: acc)]
    simp

theorem splitAtNewlines_terminated (L : List (List Char)) (h : ∀ l ∈ L, ¬ '\n' ∈ l) :
    splitAtNewlines (L.foldr (fun l r => l ++ '\n' :: r) []) [] = L := by
  induction L with
  | nil => rfl
  | cons l rest ih =>
    show splitAtNewlines (l ++ '\n' :: rest.foldr (fun l r => l ++ '\n' :: r) []) [] = l :: rest
    rw [splitAtNewlines_chunk l (h l (List.mem_cons_self l rest)) _ []]
    rw [ih (fun x hx => h x (List.mem_cons_of_mem _ hx))]
    simp

theorem lineBodies_mem {i : Nat} {steps : List String} {b : String}
    (hb : b ∈ lineBodies i steps) : ∃ j s, s ∈ steps ∧ b = planLine j s := by
  induction steps generalizing i with
  | nil => cases hb
  | cons s rest ih =>
    rcases List.mem_cons.mp hb with h1 | h2
    · exact ⟨i, s, List.mem_cons_self s rest, h1⟩
    · obtain ⟨j, t, ht, hbt⟩ := ih h2
      exact ⟨j, t, List.mem_cons_of_mem s ht, hbt⟩

theorem map_data_asString (L : List String) :
    (L.map String.data).map (fun l => l.asString) = L := by
  induction L with
  | nil => rfl
  | cons a t ih =>
    simp only [List.map_cons]
    rw [ih]
    rfl

/-- With newline-free steps, the lines of the written plan text are exactly
the formatted line bodies. -/
theorem fileLines_planContent (steps : List String) (h : ∀ s ∈ steps, ¬ '\n' ∈ s.data) :
    fileLines (planContent steps) = lineBodies 0 steps := by
  unfold fileLines planContent
  rw [joinAll_terminated_data 0 steps]
  rw [splitAtNewlines_terminated _ ?hnl]
  case hnl =>
    intro l hl
    rcases List.mem_map.mp hl with ⟨b, hb, hbl⟩
    obtain ⟨j, s, hs, hbs⟩ := lineBodies_mem hb
    rw [← hbl, hbs]
    exact planLine_no_newline j (h s hs)
  exact map_data_asString (lineBodies 0 steps)

theorem lineBodies_length (i : Nat) (steps : List String) :
    (lineBodies i steps).length = steps.length := by
  induction steps generalizing i with
  | nil => rfl
  | cons s rest ih => simp [lineBodies, ih]

theorem lineBodies_getD (i k : Nat) (steps : List String) (h : k < steps.length) :
    (lineBodies i steps).getD k "" = planLine (i + k) (steps.getD k "") := by
  induction steps generalizing i k with
  | nil => simp at h
  | cons s rest ih =>
    cases k with
    | zero => rfl
    | succ k =>
      have hk : k < rest.length := Nat.lt_of_succ_lt_succ h
      show (lineBodies (i + 1) rest).getD k "" = planLine (i + (k + 1)) (rest.getD k "")
      rw [ih (i + 1) k hk]
      congr 1
      omega

/-! ## List indexing helpers -/

theorem getD_append_left {α : Type} (l1 l2 : List α) (n : Nat) (d : α)
    (h : n < l1.length) : (l1 ++ l2).getD n d = l1.getD n d := by
  rw [List.getD_eq_getElem?_getD, List.getD_eq_getElem?_getD, List.getElem?_append_left h]

theorem getD_concat_length {α : Type} (l : List α) (a d : α) :
    (l ++ [a]).getD l.length d = a := by
  rw [List.getD_eq_getElem?_getD, List.getElem?_concat_length]
  rfl

/-! ## The claims -/

/-- C2: calling `save_plan_to_file` with the steps
`["Collect data", "Train model"]` writes a file whose entire content equals
exactly `"1. Collect data\n2. Train model\n"` (shown here from the empty
filesystem with repository root `/repo` and the default filename). -/
theorem save_plan_example_content :
    save_plan_to_file ⟨[], []⟩ "/repo" ["Collect data", "Train model"] "autogen_plan.txt"
      = Except.ok (⟨["/repo/logs"],
          [("/repo/logs/autogen_plan.txt", "1. Collect data\n2. Train model\n")]⟩,
          "/repo/logs/autogen_plan.txt") := by decide

/-- C3: a second `save_plan_to_file` call with the same filename fully
replaces the first call's content: afterwards the file at the returned path
holds exactly the second plan's text, which is also what a single call with
the second plan alone would leave there. -/
theorem save_plan_overwrite (fs : FS) (root : String) (s1 s2 : List String) (f : String)
    (fs1 fs2 : FS) (p1 p2 : String)
    (h1 : save_plan_to_file fs root s1 f = Except.ok (fs1, p1))
    (h2 : save_plan_to_file fs1 root s2 f = Except.ok (fs2, p2)) :
    p2 = p1 ∧ fs2.lookup p2 = some (planContent s2)
    ∧ ∀ fs2b p2b, save_plan_to_file fs root s2 f = Except.ok (fs2b, p2b) →
        fs2b.lookup p2b = fs2.lookup p2 := by
  obtain ⟨hp1, _, _, _⟩ := save_ok_spec h1
  obtain ⟨hp2, hc2, _, _⟩ := save_ok_spec h2
  refine ⟨hp2.trans hp1.symm, hc2, ?_⟩
  intro fs2b p2b hb
  obtain ⟨hpb, hcb, _, _⟩ := save_ok_spec hb
  rw [hcb, hc2]

theorem save_plan_overwrite_witness :
    FS.lookup ⟨["/r/logs"], [("/r/logs/plan.txt", "1. b\n2. c\n")]⟩ "/r/logs/plan.txt"
      = some (planContent ["b", "c"]) :=
  (save_plan_overwrite ⟨[], []⟩ "/r" ["a"] ["b", "c"] "plan.txt"
      ⟨["/r/logs"], [("/r/logs/plan.txt", "1. a\n")]⟩
      ⟨["/r/logs"], [("/r/logs/plan.txt", "1. b\n2. c\n")]⟩
      "/r/logs/plan.txt" "/r/logs/plan.txt" (by decide) (by decide)).2.1

/-- C4: `get_llm_config` returns a dictionary whose `config_list` is a
single entry with model exactly `"mistral:latest"`, api key the placeholder
`"NA"`, and base URL the value of the environment variable
`OLLAMA_BASE_URL` verbatim when it is set, and
`"http://localhost:11434/v1"` when it is unset. -/
theorem get_llm_config_spec (environ : List (String × String)) :
    (get_llm_config environ).config_list.length = 1
    ∧ (get_llm_config environ).config_list.map LLMEntry.model = ["mistral:latest"]
    ∧ (get_llm_config environ).config_list.map LLMEntry.api_key = ["NA"]
    ∧ (∀ kv, environ.find? (fun x => x.1 == "OLLAMA_BASE_URL") = some kv →
        (get_llm_config environ).config_list.map LLMEntry.base_url = [kv.2])
    ∧ (environ.find? (fun x => x.1 == "OLLAMA_BASE_URL") = none →
        (get_llm_config environ).config_list.map LLMEntry.base_url
          = ["http://localhost:11434/v1"]) := by
  refine ⟨rfl, rfl, rfl, ?_, ?_⟩
  · intro kv hkv
    simp [get_llm_config, os_getenv, hkv]
  · intro hnone
    simp [get_llm_config, os_getenv, hnone]

theorem get_llm_config_spec_witness :
    (get_llm_config [("OLLAMA_BASE_URL", "http://example:9999/v1")]).config_list.map
        LLMEntry.base_url = ["http://example:9999/v1"]
    ∧ (get_llm_config []).config_list.map LLMEntry.base_url
        = ["http://localhost:11434/v1"] := by
  have h1 := get_llm_config_spec [("OLLAMA_BASE_URL", "http://example:9999/v1")]
  have h2 := get_llm_config_spec []
  exact ⟨h1.2.2.2.1 ("OLLAMA_BASE_URL", "http://example:9999/v1") (by decide),
    h2.2.2.2.2 rfl⟩

/-- C7: `save_plan_to_file` performs no error handling and no retry:
it attempts at most one file write, a directory-creation error propagates
to the caller unmodified (and no write is attempted after it in program
order), and a write error propagates to the caller unmodified. -/
theorem save_plan_error_propagation (outcome : FSOp → Except String Unit)
    (root : String) (steps : List String) (filename : String) (e : String) :
    ((save_plan_to_file_traced outcome root steps filename).2.countP FSOp.isWrite ≤ 1)
    ∧ (outcome (FSOp.mkdir (pathJoin root "logs")) = Except.error e →
        (save_plan_to_file_traced outcome root steps filename).1 = Except.error e
        ∧ (save_plan_to_file_traced outcome root steps filename).2.countP FSOp.isWrite = 0)
    ∧ (outcome (FSOp.mkdir (pathJoin root "logs")) = Except.ok ()
        → outcome (FSOp.write (pathJoin (pathJoin root "logs") filename)
            (planContent steps)) = Except.error e
        → (save_plan_to_file_traced outcome root steps filename).1 = Except.error e) := by
  cases hmk : outcome (FSOp.mkdir (pathJoin root "logs")) with
  | error e2 =>
    refine ⟨?_, ?_, ?_⟩
    · simp [save_plan_to_file_traced, hmk, List.countP_cons, FSOp.isWrite]
    · intro he
      cases he
      constructor
      · simp [save_plan_to_file_traced, hmk]
      · simp [save_plan_to_file_traced, hmk, List.countP_cons, FSOp.isWrite]
    · intro hok
      cases hok
  | ok u =>
    cases u
    cases hw : outcome (FSOp.write (pathJoin (pathJoin root "logs") filename)
        (planContent steps)) with
    | error e2 =>
      refine ⟨?_, ?_, ?_⟩
      · simp [save_plan_to_file_traced, hmk, hw, List.countP_cons, FSOp.isWrite]
      · intro he
        cases he
      · intro _ he
        cases he
        simp [save_plan_to_file_traced, hmk, hw]
    | ok u2 =>
      cases u2
      refine ⟨?_, ?_, ?_⟩
      · simp [save_plan_to_file_traced, hmk, hw, List.countP_cons, FSOp.isWrite]
      · intro he
        cases he
      · intro _ he
        cases he

theorem save_plan_error_propagation_witness :
    (save_plan_to_file_traced failingOutcome "/r" ["x"] "plan.txt").1
      = Except.error "disk full"
    ∧ (save_plan_to_file_traced failingOutcome "/r" ["x"] "plan.txt").2.countP
        FSOp.isWrite = 0
    ∧ (save_plan_to_file_traced writeFailOutcome "/r" ["x"] "plan.txt").1
      = Except.error "No space left on device"
    ∧ (save_plan_to_file_traced writeFailOutcome "/r" ["x"] "plan.txt").2.countP
        FSOp.isWrite ≤ 1 := by
  have h1 := save_plan_error_propagation failingOutcome "/r" ["x"] "plan.txt" "disk full"
  have h2 := save_plan_error_propagation writeFailOutcome "/r" ["x"] "plan.txt"
    "No space left on device"
  exact ⟨(h1.2.1 rfl).1, (h1.2.1 rfl).2, h2.2.2 rfl rfl, h2.1⟩

/-- C8: directory creation in `save_plan_to_file` is idempotent: on a
well-formed filesystem where the logs directory already exists, the
`mkdir` step succeeds (returning the filesystem unchanged), and after any
successful call the `mkdir` step of a subsequent call succeeds as well. -/
theorem save_plan_mkdir_idempotent (fs : FS) (root : String) (hwf : fs.WF) :
    (pathJoin root "logs" ∈ fs.dirs →
      fs.mkdirAll (pathJoin root "logs") = Except.ok fs)
    ∧ (∀ steps f fs1 p, save_plan_to_file fs root steps f = Except.ok (fs1, p) →
        fs1.mkdirAll (pathJoin root "logs") = Except.ok fs1) := by
  constructor
  · intro hmem
    exact FS.mkdirAll_ok_of_mem hmem (hwf _ hmem)
  · intro steps f fs1 p h
    obtain ⟨_, _, hdmem, hdnone⟩ := save_ok_spec h
    exact FS.mkdirAll_ok_of_mem hdmem hdnone

theorem save_plan_mkdir_idempotent_witness :
    FS.mkdirAll ⟨["/r/logs"], []⟩ "/r/logs" = Except.ok ⟨["/r/logs"], []⟩
    ∧ FS.mkdirAll ⟨["/r/logs"], [("/r/logs/plan.txt", "1. a\n")]⟩ "/r/logs"
        = Except.ok ⟨["/r/logs"], [("/r/logs/plan.txt", "1. a\n")]⟩ := by
  have hwf : FS.WF ⟨["/r/logs"], []⟩ := by
    intro p _
    rfl
  exact ⟨(save_plan_mkdir_idempotent ⟨["/r/logs"], []⟩ "/r" hwf).1 (by decide),
    (save_plan_mkdir_idempotent ⟨["/r/logs"], []⟩ "/r" hwf).2 ["a"] "plan.txt"
      ⟨["/r/logs"], [("/r/logs/plan.txt", "1. a\n")]⟩ "/r/logs/plan.txt" (by decide)⟩

/-- C9: when the filename argument is an absolute path, the `pathlib` join
discards the logs-directory prefix: `save_plan_to_file` writes to that
exact path and returns it unchanged, so the written file need not lie
under the logs directory. -/
theorem save_plan_absolute_filename (fs : FS) (root : String) (steps : List String)
    (f : String) (fs1 : FS) (p : String) (habs : isAbs f = true)
    (h : save_plan_to_file fs root steps f = Except.ok (fs1, p)) :
    p = f ∧ fs1.lookup f = some (planContent steps) := by
  obtain ⟨hp, hc, _, _⟩ := save_ok_spec h
  have hj : pathJoin (pathJoin root "logs") f = f := by
    unfold pathJoin
    rw [if_pos habs]
  rw [hj] at hp
  exact ⟨hp, hp ▸ hc⟩

theorem save_plan_absolute_filename_witness :
    isAbs "/tmp/evil.txt" = true
    ∧ ("/tmp/evil.txt" : String) = "/tmp/evil.txt"
    ∧ FS.lookup ⟨["/repo/logs"], [("/tmp/evil.txt", "1. x\n")]⟩ "/tmp/evil.txt"
        = some (planContent ["x"]) := by
  have h := save_plan_absolute_filename ⟨[], []⟩ "/repo" ["x"] "/tmp/evil.txt"
    ⟨["/repo/logs"], [("/tmp/evil.txt", "1. x\n")]⟩ "/tmp/evil.txt" (by decide) (by decide)
  exact ⟨by decide, h.1, h.2⟩

/-- C10: `save_plan_to_file` is deterministic in its arguments: two
successful calls with equal steps and equal filenames return the same path
and write the same content, regardless of the prior filesystem state (in
particular of any prior content of the file); no environment variable is
consulted. -/
theorem save_plan_deterministic (fs fsb : FS) (root : String) (steps : List String)
    (f : String) (fs1 fs1b : FS) (p pb : String)
    (h : save_plan_to_file fs root steps f = Except.ok (fs1, p))
    (hb : save_plan_to_file fsb root steps f = Except.ok (fs1b, pb)) :
    p = pb ∧ fs1.lookup p = some (planContent steps)
    ∧ fs1b.lookup pb = some (planContent steps) := by
  obtain ⟨hp, hc, _, _⟩ := save_ok_spec h
  obtain ⟨hpb, hcb, _, _⟩ := save_ok_spec hb
  exact ⟨hp.trans hpb.symm, hc, hcb⟩

theorem save_plan_deterministic_witness :
    ("/r/logs/plan.txt" : String) = "/r/logs/plan.txt"
    ∧ FS.lookup ⟨["/r/logs"], [("/r/logs/plan.txt", "1. a\n")]⟩ "/r/logs/plan.txt"
        = some (planContent ["a"])
    ∧ FS.lookup ⟨["/r/logs"], [("/r/logs/plan.txt", "1. a\n")]⟩ "/r/logs/plan.txt"
        = some (planContent ["a"]) :=
  save_plan_deterministic ⟨[], []⟩ ⟨["/r/logs"], [("/r/logs/plan.txt", "OLD")]⟩
    "/r" ["a"] "plan.txt"
    ⟨["/r/logs"], [("/r/logs/plan.txt", "1. a\n")]⟩
    ⟨["/r/logs"], [("/r/logs/plan.txt", "1. a\n")]⟩
    "/r/logs/plan.txt" "/r/logs/plan.txt" (by decide) (by decide)

/-- C1 (amended): for every finite sequence of N newline-free strings
written by a successful `save_plan_to_file` call, the written file contains
exactly N lines and line i (1-based) is exactly the 1-based index, a dot,
a space, followed by the i-th step string.  (Stated with 0-based `i`.) -/
theorem save_plan_lines (fs : FS) (root : String) (steps : List String) (f : String)
    (fs1 : FS) (p : String)
    (hnl : ∀ s, s ∈ steps → ¬ '\n' ∈ s.data)
    (h : save_plan_to_file fs root steps f = Except.ok (fs1, p)) :
    ∃ c, fs1.lookup p = some c
      ∧ (fileLines c).length = steps.length
      ∧ ∀ i, i < steps.length →
          (fileLines c).getD i "" = toString (i + 1) ++ ". " ++ steps.getD i "" := by
  obtain ⟨_, hc, _, _⟩ := save_ok_spec h
  refine ⟨planContent steps, hc, ?_, ?_⟩
  · rw [fileLines_planContent steps hnl, lineBodies_length]
  · intro i hi
    rw [fileLines_planContent steps hnl, lineBodies_getD 0 i steps hi]
    unfold planLine
    rw [Nat.zero_add]

theorem save_plan_lines_witness :
    (fileLines "1. Collect data\n2. Train model\n").length = 2
    ∧ (fileLines "1. Collect data\n2. Train model\n").getD 0 "" = "1. Collect data"
    ∧ (fileLines "1. Collect data\n2. Train model\n").getD 1 "" = "2. Train model" := by
  obtain ⟨c, hc, hlen, hget⟩ := save_plan_lines ⟨[], []⟩ "/repo"
    ["Collect data", "Train model"] "plan.txt"
    ⟨["/repo/logs"], [("/repo/logs/plan.txt", "1. Collect data\n2. Train model\n")]⟩
    "/repo/logs/plan.txt" (by decide) (by decide)
  have hcv : c = "1. Collect data\n2. Train model\n" := by
    have he : FS.lookup
        ⟨["/repo/logs"], [("/repo/logs/plan.txt", "1. Collect data\n2. Train model\n")]⟩
        "/repo/logs/plan.txt" = some "1. Collect data\n2. Train model\n" := by decide
    rw [he] at hc
    exact (Option.some_inj.mp hc).symm
  subst hcv
  exact ⟨hlen, (hget 0 (by decide)).trans (by decide),
    (hget 1 (by decide)).trans (by decide)⟩

/-- C1, as stated, is false: with the single step `"a\nb"` (N = 1) the
written file content is `"1. a\nb\n"`, which contains 2 lines, and its
second line is `"b"`, which does not begin with `"2. "`. -/
theorem save_plan_lines_counterexample :
    save_plan_to_file ⟨[], []⟩ "/r" ["a\nb"] "p.txt"
      = Except.ok (⟨["/r/logs"], [("/r/logs/p.txt", "1. a\nb\n")]⟩, "/r/logs/p.txt")
    ∧ (["a\nb"] : List String).length = 1
    ∧ (fileLines "1. a\nb\n").length = 2
    ∧ (fileLines "1. a\nb\n").getD 1 "" = "b" := by decide

/-- C5: the group chat is constructed with a maximum of 10 rounds
(`max_round=10` in `agent.py`), and in every session state reachable by
the modelled coordinator the round counter never exceeds that maximum. -/
theorem conversation_round_le_max (goal : String) (s : Session)
    (h : Reachable goal s) : s.round ≤ groupchat_max_round ∧ groupchat_max_round = 10 := by
  refine ⟨?_, rfl⟩
  induction h with
  | refl => exact Nat.zero_le _
  | tail hab hbc ih =>
    cases hbc with
    | speak m hterm hround hpol => exact hround
    | halt hterm => exact ih

theorem conversation_round_le_max_witness :
    (initSession "Ship an MLOps pipeline").round ≤ groupchat_max_round
    ∧ groupchat_max_round = 10 :=
  conversation_round_le_max "Ship an MLOps pipeline"
    (initSession "Ship an MLOps pipeline") Relation.ReflTransGen.refl

/-- In every reachable session state, any executor message in the
transcript is preceded by an earlier planner message. -/
theorem planner_first_invariant (goal : String) (s : Session) (h : Reachable goal s) :
    ∀ i, i < s.messages.length →
      (s.messages.getD i defaultMessage).sender = Role.executor →
      ∃ j, j < i ∧ (s.messages.getD j defaultMessage).sender = Role.planner := by
  induction h with
  | refl =>
    intro i hi hex
    have hi0 : i = 0 := by
      simp [initSession] at hi
      exact hi
    subst hi0
    simp [initSession, defaultMessage] at hex
  | @tail t u hab hbc ih =>
    cases hbc with
    | speak m hterm hround hpol =>
      intro i hi hex
      have hi2 : i < t.messages.length + 1 := by
        simpa using hi
      rcases Nat.lt_succ_iff_lt_or_eq.mp hi2 with hlt | heq
      · have hgd : (t.messages ++ [m]).getD i defaultMessage
            = t.messages.getD i defaultMessage :=
          getD_append_left t.messages [m] i defaultMessage hlt
        have hex2 : (t.messages.getD i defaultMessage).sender = Role.executor := by
          rw [← hgd]
          exact hex
        obtain ⟨j, hj, hs⟩ := ih i hlt hex2
        refine ⟨j, hj, ?_⟩
        have hjlen : j < t.messages.length := hj.trans hlt
        show ((t.messages ++ [m]).getD j defaultMessage).sender = Role.planner
        rw [getD_append_left t.messages [m] j defaultMessage hjlen]
        exact hs
      · subst heq
        have hgd : (t.messages ++ [m]).getD t.messages.length defaultMessage = m :=
          getD_concat_length t.messages m defaultMessage
        have hexm : m.sender = Role.executor := by
          rw [← hgd]
          exact hex
        obtain ⟨k, hk, hks⟩ := hpol hexm
        refine ⟨k, hk, ?_⟩
        show ((t.messages ++ [m]).getD k defaultMessage).sender = Role.planner
        rw [getD_append_left t.messages [m] k defaultMessage hk]
        exact hks
    | halt hterm =>
      intro i hi hex
      exact ih i hi hex

/-- C6: in every completed (terminated) reachable conversation, the
planner's first contribution precedes any executor contribution in
transcript order: every executor message has an earlier planner message. -/
theorem planner_before_executor (goal : String) (s : Session)
    (hreach : Reachable goal s) (_hdone : s.terminated = true)
    (i : Nat) (hi : i < s.messages.length)
    (hex : (s.messages.getD i defaultMessage).sender = Role.executor) :
    ∃ j, j < i ∧ (s.messages.getD j defaultMessage).sender = Role.planner :=
  planner_first_invariant goal s hreach i hi hex

theorem planner_before_executor_witness :
    1 < 3 ∧ (([{ sender := Role.user, content := "g" },
        { sender := Role.planner, content := "plan" },
        { sender := Role.executor, content := "run" }] : List Message).getD 1
          defaultMessage).sender = Role.planner := by
  have h1 : Turn groupchat_max_round (initSession "g")
      { messages := [{ sender := Role.user, content := "g" },
          { sender := Role.planner, content := "plan" }],
        round := 1, terminated := false } :=
    Turn.speak (initSession "g") { sender := Role.planner, content := "plan" }
      rfl (by decide) (fun hpe => by cases hpe)
  have h2 : Turn groupchat_max_round
      { messages := [{ sender := Role.user, content := "g" },
          { sender := Role.planner, content := "plan" }],
        round := 1, terminated := false }
      { messages := [{ sender := Role.user, content := "g" },
          { sender := Role.planner, content := "plan" },
          { sender := Role.executor, content := "run" }],
        round := 2, terminated := false } :=
    Turn.speak
      { messages := [{ sender := Role.user, content := "g" },
          { sender := Role.planner, content := "plan" }],
        round := 1, terminated := false }
      { sender := Role.executor, content := "run" }
      rfl (by decide) (fun _ => ⟨1, by decide, rfl⟩)
  have h3 : Turn groupchat_max_round
      { messages := [{ sender := Role.user, content := "g" },
          { sender := Role.planner, content := "plan" },
          { sender := Role.executor, content := "run" }],
        round := 2, terminated := false }
      { messages := [{ sender := Role.user, content := "g" },
          { sender := Role.planner, content := "plan" },
          { sender := Role.executor, content := "run" }],
        round := 2, terminated := true } :=
    Turn.halt
      { messages := [{ sender := Role.user, content := "g" },
          { sender := Role.planner, content := "plan" },
          { sender := Role.executor, content := "run" }],
        round := 2, terminated := false } rfl
  have hreach : Reachable "g"
      { messages := [{ sender := Role.user, content := "g" },
          { sender := Role.planner, content := "plan" },
          { sender := Role.executor, content := "run" }],
        round := 2, terminated := true } :=
    Relation.ReflTransGen.tail (Relation.ReflTransGen.tail
      (Relation.ReflTransGen.tail Relation.ReflTransGen.refl h1) h2) h3
  obtain ⟨j, hj, hs⟩ := planner_before_executor "g" _ hreach rfl 2 (by decide) rfl
  have hj1 : j = 0 ∨ j = 1 := by omega
  rcases hj1 with hj0 | hj1
  · subst hj0
    cases hs
  · subst hj1
    exact ⟨by decide, hs⟩
